import Mathlib

/-!
Shallow embedding of the Business Manager backend (single-file Python/FastAPI
service `app.py`) and proofs about its payroll, roster and tax/super logic.

Modelling conventions:
* Python floats are modelled as rationals (`ℚ`).
* `round(x, 2)` is modelled as `round2` (round to nearest hundredth; the spec
  allows either half-up or half-even for the tie, which no statement below
  depends on).
* `HH:MM` wall-clock strings are modelled as `Time` (hour/minute pair);
  `datetime.strptime("%H:%M")` comparisons reduce to minutes-of-day
  comparisons.
* `YYYY-MM-DD` strings are modelled as `Date` triples; chronological comparison
  of parsed dates is lexicographic on (year, month, day).
* Python `dict` accumulation (`d[k] = d.get(k, 0.0) + v`) is modelled as an
  insertion-ordered association list with the `bump` update.
* The DB session is modelled as explicit lists of records; a raised
  `HTTPException` / `KeyError` is an `Except.error` / `none` result.
-/

set_option autoImplicit false

/-- Round a rational to 2 decimal places, modelling Python `round(x, 2)`. -/
def round2 (x : ℚ) : ℚ := (round (x * 100) : ℤ) / 100

/-- A wall-clock time of day, the parse of an `HH:MM` string. -/
structure Time where
  hour : Nat
  minute : Nat
deriving DecidableEq, Repr

/-- Validity of an `HH:MM` string under `strptime("%H:%M")`. -/
def Time.validTime (t : Time) : Prop := t.hour < 24 ∧ t.minute < 60

instance (t : Time) : Decidable t.validTime := by
  unfold Time.validTime; infer_instance

/-- Minutes since midnight; parsed `%H:%M` datetimes compare by this value. -/
def toMin (t : Time) : Nat := t.hour * 60 + t.minute

/-- Source `hours_between(start, end)`: if the parsed end time is earlier than
the start it is pushed to the next day (`e += timedelta(days=1)`), then the
elapsed whole seconds are divided by 3600. -/
def hours_between (s e : Time) : ℚ :=
  let sm := toMin s
  let em := toMin e
  let em2 := if em < sm then em + 1440 else em
  (((em2 - sm) * 60 : ℕ) : ℚ) / 3600

/-- A calendar date, the parse of a `YYYY-MM-DD` string. -/
structure Date where
  year : Nat
  month : Nat
  day : Nat
deriving DecidableEq, Repr

/-- Days in a month, Gregorian calendar (what `strptime("%Y-%m-%d")` accepts). -/
def daysInMonth (y m : Nat) : Nat :=
  if m = 2 then (if (y % 4 = 0 ∧ y % 100 ≠ 0) ∨ y % 400 = 0 then 29 else 28)
  else if m = 4 ∨ m = 6 ∨ m = 9 ∨ m = 11 then 30
  else 31

/-- Validity of a `YYYY-MM-DD` string under `strptime("%Y-%m-%d")`. -/
def Date.validDate (d : Date) : Prop :=
  1 ≤ d.month ∧ d.month ≤ 12 ∧ 1 ≤ d.day ∧ d.day ≤ daysInMonth d.year d.month

instance (d : Date) : Decidable d.validDate := by
  unfold Date.validDate; infer_instance

/-- Chronological `<=` on parsed dates: lexicographic on (year, month, day). -/
def Date.le (a b : Date) : Bool :=
  decide (a.year < b.year ∨ (a.year = b.year ∧
    (a.month < b.month ∨ (a.month = b.month ∧ a.day ≤ b.day))))

/-- Source `within_period(day, start, end)`: the chained comparison
`s <= d <= e` on the three parsed dates. -/
def within_period (d s e : Date) : Bool := Date.le s d && Date.le d e

/-- Employment categories of `Employee.employment_type`. -/
inductive EmploymentType
  | TFN
  | ABN
  | INT_STUDENT
deriving DecidableEq, Repr

/-- Pay preference / pay method values. -/
inductive PayPref
  | bank
  | cash
deriving DecidableEq, Repr

/-- `Shift.expected_busyness` values (informational only). -/
inductive Busyness
  | low
  | med
  | high
deriving DecidableEq, Repr

/-- The `Employee` record (DB row; `id` is the assigned primary key). -/
structure Employee where
  id : Nat
  name : String
  email : Option String := none
  employment_type : EmploymentType := .TFN
  tfn : Option String := none
  abn : Option String := none
  hourly_rate : ℚ := 0
  role : Option String := none
  max_hours_week : Option ℚ := none
  pay_preference : PayPref := .bank
deriving DecidableEq, Repr

/-- The `Shift` record.  The source field `end` is a Lean keyword and is
rendered here as `stop`. -/
structure Shift where
  employee_id : Option Nat := none
  day : Date
  start : Time
  stop : Time
  role : Option String := none
  expected_busyness : Busyness := .med
  max_shift_hours : Option ℚ := none
deriving DecidableEq, Repr

/-- The `TaxSuperRule` singleton configuration record, with its documented
defaults. -/
structure TaxSuperRule where
  id : Nat := 1
  super_rate : ℚ := 115/1000
  int_student_weekly_cap : ℚ := 24
  bracket1_max : ℚ := 500
  bracket1_rate : ℚ := 5/100
  bracket2_max : ℚ := 1000
  bracket2_base : ℚ := 25
  bracket2_rate : ℚ := 15/100
  bracket3_base : ℚ := 100
  bracket3_rate : ℚ := 25/100
  abn_withholding_rate : ℚ := 0
deriving DecidableEq, Repr

/-- Source `compute_tax(emp, gross, weekly_hours, r)`: ABN flat withholding,
otherwise the three-tier progressive lookup; every branch rounds to 2dp.
`weekly_hours` is accepted but never read. -/
def compute_tax (emp : Employee) (gross : ℚ) (weekly_hours : ℚ)
    (r : TaxSuperRule) : ℚ :=
  if emp.employment_type = .ABN then round2 (gross * r.abn_withholding_rate)
  else if gross ≤ r.bracket1_max then round2 (gross * r.bracket1_rate)
  else if gross ≤ r.bracket2_max then
    round2 (r.bracket2_base + (gross - r.bracket1_max) * r.bracket2_rate)
  else round2 (r.bracket3_base + (gross - r.bracket2_max) * r.bracket3_rate)

/-- Source `compute_super(gross, r)`. -/
def compute_super (gross : ℚ) (r : TaxSuperRule) : ℚ :=
  round2 (gross * r.super_rate)

/-- Reference definition of the tax computation, written from the spec's words
(§4.2): ABN ignores brackets and weekly hours entirely; otherwise a three-tier
progressive lookup on gross pay alone with upper edges closed.  Note it takes
no weekly-hours argument at all. -/
def computeTax_ref (emp : Employee) (gross : ℚ) (r : TaxSuperRule) : ℚ :=
  if emp.employment_type = .ABN then round2 (gross * r.abn_withholding_rate)
  else if gross ≤ r.bracket1_max then round2 (gross * r.bracket1_rate)
  else if gross ≤ r.bracket2_max then
    round2 (r.bracket2_base + (gross - r.bracket1_max) * r.bracket2_rate)
  else round2 (r.bracket3_base + (gross - r.bracket2_max) * r.bracket3_rate)

/-- Insertion-ordered dict accumulation: `m[k] = m.get(k, 0.0) + v`.  An
existing key is updated in place (keeping its position); a new key is appended
at the end, matching Python dict insertion order. -/
def bump (m : List (Nat × ℚ)) (k : Nat) (v : ℚ) : List (Nat × ℚ) :=
  match m with
  | [] => [(k, v)]
  | (k2, v2) :: rest =>
    if k2 = k then (k2, v2 + v) :: rest else (k2, v2) :: bump rest k v

/-- Total recorded for key `k` in an accumulation dict (0 when absent). -/
def lookupTotal (m : List (Nat × ℚ)) (k : Nat) : ℚ :=
  match m.find? (fun p => p.1 = k) with
  | none => 0
  | some p => p.2

/-- One iteration of the hour-aggregation loop in `generate_roster`:
`if not sh.employee_id: continue` — Python's falsy test skips both `None` and
`0` — then `hours_map[id] += hours_between(start, end)`. -/
def hoursStep (m : List (Nat × ℚ)) (sh : Shift) : List (Nat × ℚ) :=
  match sh.employee_id with
  | none => m
  | some k => if k = 0 then m else bump m k (hours_between sh.start sh.stop)

/-- The `hours_map` built by `generate_roster` over all shifts. -/
def hoursMap (shifts : List Shift) : List (Nat × ℚ) :=
  shifts.foldl hoursStep []

/-- One iteration of the hour-aggregation loop in `payroll_calc`: skip falsy
`employee_id` (`None` or `0`), then add hours only when the shift's day lies
within the requested period. -/
def periodStep (ps pe : Date) (m : List (Nat × ℚ)) (sh : Shift) :
    List (Nat × ℚ) :=
  match sh.employee_id with
  | none => m
  | some k =>
    if k = 0 then m
    else if within_period sh.day ps pe then
      bump m k (hours_between sh.start sh.stop)
    else m

/-- The `per_emp_hours` dict built by `payroll_calc`. -/
def perEmpHours (shifts : List Shift) (ps pe : Date) : List (Nat × ℚ) :=
  shifts.foldl (periodStep ps pe) []

/-- Hour aggregation as claim C4 words it: a shift qualifies iff its
assigned-employee identifier is non-null (with no zero test) and its day lies
within the period. -/
def perEmpHoursClaim (shifts : List Shift) (ps pe : Date) : List (Nat × ℚ) :=
  shifts.foldl (fun m sh =>
    match sh.employee_id with
    | none => m
    | some k =>
      if within_period sh.day ps pe then
        bump m k (hours_between sh.start sh.stop)
      else m) []

/-- The employee dict `{e.id: e for e in employees}` built by `payroll_calc`,
as a lookup (later records override earlier ones on a duplicate id). -/
def empDict (employees : List Employee) (k : Nat) : Option Employee :=
  employees.foldl (fun acc e => if e.id = k then some e else acc) none

/-- One generated pay line of `payroll_calc`. -/
structure PayLine where
  employee_id : Nat
  hours : ℚ
  gross : ℚ
  tax : ℚ
  super : ℚ
  net : ℚ
  pay_method : PayPref
deriving DecidableEq, Repr

/-- One iteration of the pay-line loop of `payroll_calc`; `none` models the
`KeyError` raised when a shift references an employee absent from the dict. -/
def mkPayLine (employees : List Employee) (r : TaxSuperRule) (dpm : PayPref)
    (p : Nat × ℚ) : Option PayLine :=
  match empDict employees p.1 with
  | none => none
  | some emp =>
    let gross := round2 (p.2 * emp.hourly_rate)
    let tax := compute_tax emp gross p.2 r
    let sup := compute_super gross r
    let pm := if emp.employment_type ≠ .ABN then emp.pay_preference else dpm
    some ⟨p.1, p.2, gross, tax, sup, round2 (gross - tax), pm⟩

/-- The pay-line loop of `payroll_calc` over the accumulated hours dict. -/
def payLines (employees : List Employee) (r : TaxSuperRule) (dpm : PayPref) :
    List (Nat × ℚ) → Option (List PayLine)
  | [] => some []
  | p :: rest =>
    match mkPayLine employees r dpm p, payLines employees r dpm rest with
    | some l, some ls => some (l :: ls)
    | _, _ => none

/-- Source `payroll_calc(req)`: aggregate hours per employee over the period,
then emit one pay line per dict entry. -/
def payroll_calc (employees : List Employee) (shifts : List Shift)
    (r : TaxSuperRule) (period_start period_end : Date)
    (default_pay_method : PayPref) : Option (List PayLine) :=
  payLines employees r default_pay_method
    (perEmpHours shifts period_start period_end)

/-- Comparison used by `sorted(cand, key=lambda e: e.hourly_rate)`. -/
def rateLe (a b : Employee) : Bool := decide (a.hourly_rate ≤ b.hourly_rate)

/-- One iteration of the assignment loop of `generate_roster`:
`if sh.employee_id is not None: continue` (an `is not None` test, not a falsy
test), candidate filter `sh.role is None or e.role == sh.role`, then
`sorted(cand, key=rate)[0]` — head of a stable ascending sort. -/
def assign_one (employees : List Employee) (sh : Shift) : Shift :=
  match sh.employee_id with
  | some _ => sh
  | none =>
    let cand := employees.filter (fun e => sh.role.isNone || e.role == sh.role)
    match (cand.mergeSort rateLe).head? with
    | none => sh
    | some chosen => { sh with employee_id := some chosen.id }

/-- The assignment pass of `generate_roster` (each shift is handled
independently: the employee list never changes during the loop). -/
def rosterAssign (employees : List Employee) (shifts : List Shift) :
    List Shift :=
  shifts.map (assign_one employees)

/-- Candidate set as claim C5 words it: employees whose role equals the
shift's required role, or all employees when the shift's role is null. -/
def candidates (employees : List Employee) (sh : Shift) : List Employee :=
  match sh.role with
  | none => employees
  | some ro => employees.filter (fun e => e.role == some ro)

/-- Cheapest candidate as claim C5 words it: lowest hourly rate, ties broken
by first-encountered order. -/
def chooseCheapest : List Employee → Option Employee
  | [] => none
  | e :: rest =>
    match chooseCheapest rest with
    | none => some e
    | some c => if c.hourly_rate < e.hourly_rate then some c else some e

/-- `s.get(Employee, emp_id)`: primary-key lookup. -/
def sGet (employees : List Employee) (k : Nat) : Option Employee :=
  employees.find? (fun e => e.id = k)

/-- The four running totals of `generate_roster`. -/
structure Totals where
  employee_cost : ℚ
  tax_cost : ℚ
  super_cost : ℚ
  cash_cost : ℚ
deriving DecidableEq, Repr

/-- One iteration of the totals loop of `generate_roster`: gross is the raw
`hrs * hourly_rate` (not rounded), tax and super are computed from that raw
gross, and cash outflow adds gross only for cash-preference employees. -/
def totalsStep (r : TaxSuperRule) (acc : Totals) (p : Employee × ℚ) : Totals :=
  let gross := p.2 * p.1.hourly_rate
  { employee_cost := acc.employee_cost + gross
    tax_cost := acc.tax_cost + compute_tax p.1 gross p.2 r
    super_cost := acc.super_cost + compute_super gross r
    cash_cost := acc.cash_cost
      + (if p.1.pay_preference = .cash then gross else 0) }

/-- Resolve each hours-dict entry to its employee record via `s.get`; `none`
models the crash on a dangling employee reference. -/
def resolvePairs (employees : List Employee) :
    List (Nat × ℚ) → Option (List (Employee × ℚ))
  | [] => some []
  | p :: rest =>
    match sGet employees p.1, resolvePairs employees rest with
    | some e, some ps => some ((e, p.2) :: ps)
    | _, _ => none

/-- The final `for k in totals: totals[k] = round(totals[k], 2)`. -/
def roundTotals (t : Totals) : Totals :=
  ⟨round2 t.employee_cost, round2 t.tax_cost, round2 t.super_cost,
   round2 t.cash_cost⟩

/-- Source `generate_roster()`: assignment pass, then the totals snapshot over
the (possibly updated) shifts. -/
def generate_roster (employees : List Employee) (shifts : List Shift)
    (r : TaxSuperRule) : List Shift × Option Totals :=
  let shifts1 := rosterAssign employees shifts
  (shifts1,
    (resolvePairs employees (hoursMap shifts1)).map
      (fun pairs => roundTotals (pairs.foldl (totalsStep r) ⟨0, 0, 0, 0⟩)))

/-- The `ShiftIn` request schema. -/
structure ShiftIn where
  employee_id : Option Nat := none
  day : Date
  start : Time
  stop : Time
  role : Option String := none
  expected_busyness : Busyness := .med
  max_shift_hours : Option ℚ := none
deriving DecidableEq, Repr

/-- `Shift(**shift.model_dump())`. -/
def shiftOfIn (si : ShiftIn) : Shift :=
  { employee_id := si.employee_id, day := si.day, start := si.start,
    stop := si.stop, role := si.role,
    expected_busyness := si.expected_busyness,
    max_shift_hours := si.max_shift_hours }

/-- Source `add_shift(shift)`: build the record, reject with HTTP 400 when a
cap is set and the computed duration strictly exceeds it, otherwise persist.
An error leaves the store untouched (the record is only added on the ok
path). -/
def add_shift (db : List Shift) (si : ShiftIn) : Except String (List Shift) :=
  let sh := shiftOfIn si
  match sh.max_shift_hours with
  | some cap =>
    if hours_between sh.start sh.stop > cap then
      .error "Shift exceeds max_shift_hours"
    else .ok (db ++ [sh])
  | none => .ok (db ++ [sh])

/-- The `RuleUpdate` request schema: a struct of optionals. -/
structure RuleUpdate where
  super_rate : Option ℚ := none
  int_student_weekly_cap : Option ℚ := none
  bracket1_max : Option ℚ := none
  bracket1_rate : Option ℚ := none
  bracket2_max : Option ℚ := none
  bracket2_base : Option ℚ := none
  bracket2_rate : Option ℚ := none
  bracket3_base : Option ℚ := none
  bracket3_rate : Option ℚ := none
  abn_withholding_rate : Option ℚ := none
deriving DecidableEq, Repr

/-- Source `update_tax_super_rules(update)`: `setattr` on the existing record
for every field present in `model_dump(exclude_none=True)`; all other fields
(including the primary key) are untouched. -/
def update_tax_super_rules (r : TaxSuperRule) (u : RuleUpdate) : TaxSuperRule :=
  { id := r.id
    super_rate := u.super_rate.getD r.super_rate
    int_student_weekly_cap :=
      u.int_student_weekly_cap.getD r.int_student_weekly_cap
    bracket1_max := u.bracket1_max.getD r.bracket1_max
    bracket1_rate := u.bracket1_rate.getD r.bracket1_rate
    bracket2_max := u.bracket2_max.getD r.bracket2_max
    bracket2_base := u.bracket2_base.getD r.bracket2_base
    bracket2_rate := u.bracket2_rate.getD r.bracket2_rate
    bracket3_base := u.bracket3_base.getD r.bracket3_base
    bracket3_rate := u.bracket3_rate.getD r.bracket3_rate
    abn_withholding_rate :=
      u.abn_withholding_rate.getD r.abn_withholding_rate }

/-- A rational that is a whole number of hundredths (every `round2` result,
hence every stored money amount, is one). -/
def IsHundredth (x : ℚ) : Prop := ∃ n : ℤ, x = (n : ℚ) / 100

/-- Concrete fixture: a TFN employee at rate 10. -/
def wEmp : Employee := { id := 1, name := "Avery", hourly_rate := 10 }

/-- Concrete fixture: an assigned 8-hour shift in June 2024. -/
def wShiftAssigned : Shift :=
  { employee_id := some 1, day := ⟨2024, 6, 15⟩, start := ⟨9, 0⟩,
    stop := ⟨17, 0⟩ }

/-- Concrete fixture: a shift-creation request with an 8-hour cap. -/
def wShiftIn : ShiftIn :=
  { day := ⟨2024, 6, 15⟩, start := ⟨9, 0⟩, stop := ⟨17, 0⟩,
    max_shift_hours := some 8 }

/-- Concrete fixture: a barista at rate 20 (the cheaper one). -/
def wBaristaA : Employee :=
  { id := 1, name := "A", hourly_rate := 20, role := some "barista" }

/-- Concrete fixture: a barista at rate 25. -/
def wBaristaB : Employee :=
  { id := 2, name := "B", hourly_rate := 25, role := some "barista" }

/-- Concrete fixture: an unassigned shift requiring the barista role. -/
def wShiftBarista : Shift :=
  { day := ⟨2024, 6, 15⟩, start := ⟨9, 0⟩, stop := ⟨17, 0⟩,
    role := some "barista" }

/-! ### Theorems -/

/-- Unfolding lemma for `hours_between` with the local lets resolved. -/
theorem hours_between_eq (s e : Time) :
    hours_between s e
      = ((((if toMin e < toMin s then toMin e + 1440 else toMin e) - toMin s)
          * 60 : ℕ) : ℚ) / 3600 := rfl

/-- Claim C8: for valid `HH:MM` pairs, `hours_between` is the elapsed time in
fractional hours, adding 24 hours when the end time precedes the start time;
in particular 09:00 to 17:00 is 8 hours and 22:00 to 06:00 is 8 hours. -/
theorem hours_between_spec :
    (∀ s e : Time, s.validTime → e.validTime →
      (toMin s ≤ toMin e →
        hours_between s e = ((toMin e : ℚ) - (toMin s : ℚ)) / 60) ∧
      (toMin e < toMin s →
        hours_between s e = ((toMin e : ℚ) + 24 * 60 - (toMin s : ℚ)) / 60)) ∧
    hours_between ⟨9, 0⟩ ⟨17, 0⟩ = 8 ∧ hours_between ⟨22, 0⟩ ⟨6, 0⟩ = 8 := by
  refine ⟨fun s e hvs hve => ⟨fun h => ?_, fun h => ?_⟩,
    by norm_num [hours_between_eq, toMin], by norm_num [hours_between_eq, toMin]⟩
  · rw [hours_between_eq, if_neg (by omega)]
    have hc : ((toMin e - toMin s) * 60 : ℕ)
        = ((toMin e : ℚ) - (toMin s : ℚ)) * 60 := by
      push_cast [Nat.cast_sub h]; ring
    rw [hc]; ring
  · obtain ⟨hh, hm⟩ := hvs
    rw [hours_between_eq, if_pos h]
    have hle : toMin s ≤ toMin e + 1440 := by unfold toMin; omega
    have hc : ((toMin e + 1440 - toMin s) * 60 : ℕ)
        = ((toMin e : ℚ) + 24 * 60 - (toMin s : ℚ)) * 60 := by
      rw [Nat.cast_mul, Nat.cast_sub hle]
      push_cast; ring
    rw [hc]; ring

/-- Claim C8 witness at the spec's example 09:00 → 17:00. -/
theorem hours_between_spec_witness :
    Time.validTime ⟨9, 0⟩ ∧ Time.validTime ⟨17, 0⟩ ∧
    hours_between ⟨9, 0⟩ ⟨17, 0⟩ = ((toMin ⟨17, 0⟩ : ℚ) - (toMin ⟨9, 0⟩ : ℚ)) / 60 :=
  ⟨by decide, by decide,
    (hours_between_spec.1 ⟨9, 0⟩ ⟨17, 0⟩ (by decide) (by decide)).1 (by decide)⟩

/-- Transitivity of the chronological date order. -/
theorem date_le_trans {a b c : Date} (h1 : Date.le a b = true)
    (h2 : Date.le b c = true) : Date.le a c = true := by
  simp only [Date.le, decide_eq_true_eq] at h1 h2 ⊢
  omega

/-- Claim C9: `within_period` is true iff the day lies between the period
bounds inclusively, and an inverted range (start after end) matches no day. -/
theorem within_period_spec :
    (∀ d s e : Date, d.validDate → s.validDate → e.validDate →
      (within_period d s e = true ↔ (Date.le s d = true ∧ Date.le d e = true))) ∧
    (∀ d s e : Date, Date.le s e = false → within_period d s e = false) := by
  constructor
  · intro d s e _ _ _
    simp [within_period]
  · intro d s e hinv
    by_contra hmem
    rw [Bool.not_eq_false, within_period, Bool.and_eq_true] at hmem
    exact absurd (date_le_trans hmem.1 hmem.2) (by simp [hinv])

/-- Claim C9 witness at the spec's example dates (June 2024 period). -/
theorem within_period_spec_witness :
    Date.validDate ⟨2024, 6, 15⟩ ∧ Date.validDate ⟨2024, 6, 1⟩ ∧
    Date.validDate ⟨2024, 6, 30⟩ ∧
    (within_period ⟨2024, 6, 15⟩ ⟨2024, 6, 1⟩ ⟨2024, 6, 30⟩ = true ↔
      (Date.le ⟨2024, 6, 1⟩ ⟨2024, 6, 15⟩ = true ∧
       Date.le ⟨2024, 6, 15⟩ ⟨2024, 6, 30⟩ = true)) ∧
    within_period ⟨2024, 6, 15⟩ ⟨2024, 6, 30⟩ ⟨2024, 6, 1⟩ = false :=
  ⟨by decide, by decide, by decide,
    within_period_spec.1 ⟨2024, 6, 15⟩ ⟨2024, 6, 1⟩ ⟨2024, 6, 30⟩
      (by decide) (by decide) (by decide),
    within_period_spec.2 ⟨2024, 6, 15⟩ ⟨2024, 6, 30⟩ ⟨2024, 6, 1⟩ (by decide)⟩

/-- Claim C1: `compute_tax` equals the reference definition from the spec —
for ABN employees the flat withholding (independent of the weekly-hours
argument and of the brackets), otherwise the three-tier progressive lookup on
gross pay alone with closed upper edges; in particular a non-ABN employee with
gross exactly `bracket1_max` is taxed at the bracket-1 rate. -/
theorem compute_tax_matches_ref :
    (∀ (emp : Employee) (gross weekly_hours : ℚ) (r : TaxSuperRule),
      compute_tax emp gross weekly_hours r = computeTax_ref emp gross r) ∧
    (∀ (emp : Employee) (weekly_hours : ℚ) (r : TaxSuperRule),
      emp.employment_type ≠ .ABN →
      compute_tax emp r.bracket1_max weekly_hours r
        = round2 (r.bracket1_max * r.bracket1_rate)) := by
  constructor
  · intro emp gross weekly_hours r
    rfl
  · intro emp weekly_hours r h
    unfold compute_tax
    rw [if_neg h, if_pos le_rfl]

/-- Claim C1 witness: a TFN employee at the default rules, with gross exactly
at the bracket-1 edge, is taxed at the bracket-1 rate. -/
theorem compute_tax_matches_ref_witness :
    ({ id := 1, name := "a" } : Employee).employment_type ≠ .ABN ∧
    compute_tax { id := 1, name := "a" } ({} : TaxSuperRule).bracket1_max 38 {}
      = round2 (({} : TaxSuperRule).bracket1_max * ({} : TaxSuperRule).bracket1_rate) :=
  ⟨by decide, compute_tax_matches_ref.2 { id := 1, name := "a" } 38 {} (by decide)⟩

/-- Every `round2` result is a whole number of hundredths. -/
theorem isHundredth_round2 (x : ℚ) : IsHundredth (round2 x) :=
  ⟨round (x * 100), rfl⟩

/-- Hundredths are closed under subtraction. -/
theorem isHundredth_sub {a b : ℚ} (ha : IsHundredth a) (hb : IsHundredth b) :
    IsHundredth (a - b) := by
  obtain ⟨m, rfl⟩ := ha
  obtain ⟨n, rfl⟩ := hb
  exact ⟨m - n, by push_cast; ring⟩

/-- `round2` is the identity on whole numbers of hundredths. -/
theorem round2_eq_self {x : ℚ} (h : IsHundredth x) : round2 x = x := by
  obtain ⟨n, rfl⟩ := h
  unfold round2
  rw [div_mul_cancel₀ _ (by norm_num : (100 : ℚ) ≠ 0), round_intCast]

/-- Every branch of `compute_tax` returns a 2dp-rounded amount. -/
theorem compute_tax_isHundredth (emp : Employee) (gross wh : ℚ)
    (r : TaxSuperRule) : IsHundredth (compute_tax emp gross wh r) := by
  unfold compute_tax
  split_ifs <;> exact isHundredth_round2 _

/-- Every pay line emitted by the pay-line loop satisfies
`net = gross - tax` exactly. -/
theorem payLines_net (employees : List Employee) (r : TaxSuperRule)
    (dpm : PayPref) :
    ∀ (ps : List (Nat × ℚ)) (lines : List PayLine),
      payLines employees r dpm ps = some lines →
      ∀ line ∈ lines, line.net = line.gross - line.tax := by
  intro ps
  induction ps with
  | nil =>
    intro lines h line hline
    simp only [payLines, Option.some.injEq] at h
    subst h
    simp at hline
  | cons p rest ih =>
    intro lines h line hline
    simp only [payLines] at h
    cases hmk : mkPayLine employees r dpm p with
    | none => rw [hmk] at h; simp at h
    | some l0 =>
      cases hrest : payLines employees r dpm rest with
      | none => rw [hmk, hrest] at h; simp at h
      | some ls =>
        rw [hmk, hrest] at h
        simp only [Option.some.injEq] at h
        subst h
        rcases List.mem_cons.mp hline with rfl | hmem
        · simp only [mkPayLine] at hmk
          cases hd : empDict employees p.1 with
          | none => rw [hd] at hmk; simp at hmk
          | some emp =>
            rw [hd] at hmk
            simp only [Option.some.injEq] at hmk
            subst hmk
            exact round2_eq_self
              (isHundredth_sub (isHundredth_round2 _)
                (compute_tax_isHundredth _ _ _ _))
        · exact ih ls hrest line hmem

/-- Claim C2: every pay line produced by `payroll_calc` has
`net = gross - tax` exactly (both already 2dp-rounded), so the super amount is
never subtracted from net pay. -/
theorem payroll_net_eq_gross_sub_tax :
    ∀ (employees : List Employee) (shifts : List Shift) (r : TaxSuperRule)
      (ps pe : Date) (dpm : PayPref) (lines : List PayLine) (line : PayLine),
      payroll_calc employees shifts r ps pe dpm = some lines →
      line ∈ lines → line.net = line.gross - line.tax :=
  fun employees _shifts r _ps _pe dpm lines line h hm =>
    payLines_net employees r dpm _ lines h line hm

/-- Claim C2 witness: one TFN employee at rate 10 with one 8-hour shift in
the period yields the pay line (gross 80, tax 4, super 9.2, net 76), and the
theorem applies to it. -/
theorem payroll_net_eq_gross_sub_tax_witness :
    payroll_calc [{ id := 1, name := "Avery", hourly_rate := 10 }]
        [{ employee_id := some 1, day := ⟨2024, 6, 15⟩, start := ⟨9, 0⟩,
           stop := ⟨17, 0⟩ }]
        {} ⟨2024, 6, 1⟩ ⟨2024, 6, 30⟩ .bank
      = some [⟨1, 8, 80, 4, 46/5, 76, .bank⟩] ∧
    (⟨1, 8, 80, 4, 46/5, 76, .bank⟩ : PayLine).net
      = (⟨1, 8, 80, 4, 46/5, 76, .bank⟩ : PayLine).gross
        - (⟨1, 8, 80, 4, 46/5, 76, .bank⟩ : PayLine).tax := by
  have hcalc : payroll_calc [{ id := 1, name := "Avery", hourly_rate := 10 }]
      [{ employee_id := some 1, day := ⟨2024, 6, 15⟩, start := ⟨9, 0⟩,
         stop := ⟨17, 0⟩ }]
      {} ⟨2024, 6, 1⟩ ⟨2024, 6, 30⟩ .bank
      = some [⟨1, 8, 80, 4, 46/5, 76, .bank⟩] := by
    norm_num [payroll_calc, payLines, mkPayLine, perEmpHours, periodStep,
      bump, empDict, within_period, Date.le, hours_between_eq, toMin,
      compute_tax, compute_super, round2, round_eq,
      (by decide : ¬(EmploymentType.TFN = EmploymentType.ABN))]
  exact ⟨hcalc,
    payroll_net_eq_gross_sub_tax _ _ {} _ _ .bank _ _ hcalc (by simp)⟩

/-- Claim C7: the partial update changes exactly the supplied fields to the
supplied values, keeps every unsupplied field (and the primary key), and the
record is merged in place rather than replaced. -/
theorem rule_update_frame :
    ∀ (r : TaxSuperRule) (u : RuleUpdate),
      (update_tax_super_rules r u).id = r.id ∧
      (∀ v, u.super_rate = some v →
        (update_tax_super_rules r u).super_rate = v) ∧
      (u.super_rate = none →
        (update_tax_super_rules r u).super_rate = r.super_rate) ∧
      (∀ v, u.int_student_weekly_cap = some v →
        (update_tax_super_rules r u).int_student_weekly_cap = v) ∧
      (u.int_student_weekly_cap = none →
        (update_tax_super_rules r u).int_student_weekly_cap
          = r.int_student_weekly_cap) ∧
      (∀ v, u.bracket1_max = some v →
        (update_tax_super_rules r u).bracket1_max = v) ∧
      (u.bracket1_max = none →
        (update_tax_super_rules r u).bracket1_max = r.bracket1_max) ∧
      (∀ v, u.bracket1_rate = some v →
        (update_tax_super_rules r u).bracket1_rate = v) ∧
      (u.bracket1_rate = none →
        (update_tax_super_rules r u).bracket1_rate = r.bracket1_rate) ∧
      (∀ v, u.bracket2_max = some v →
        (update_tax_super_rules r u).bracket2_max = v) ∧
      (u.bracket2_max = none →
        (update_tax_super_rules r u).bracket2_max = r.bracket2_max) ∧
      (∀ v, u.bracket2_base = some v →
        (update_tax_super_rules r u).bracket2_base = v) ∧
      (u.bracket2_base = none →
        (update_tax_super_rules r u).bracket2_base = r.bracket2_base) ∧
      (∀ v, u.bracket2_rate = some v →
        (update_tax_super_rules r u).bracket2_rate = v) ∧
      (u.bracket2_rate = none →
        (update_tax_super_rules r u).bracket2_rate = r.bracket2_rate) ∧
      (∀ v, u.bracket3_base = some v →
        (update_tax_super_rules r u).bracket3_base = v) ∧
      (u.bracket3_base = none →
        (update_tax_super_rules r u).bracket3_base = r.bracket3_base) ∧
      (∀ v, u.bracket3_rate = some v →
        (update_tax_super_rules r u).bracket3_rate = v) ∧
      (u.bracket3_rate = none →
        (update_tax_super_rules r u).bracket3_rate = r.bracket3_rate) ∧
      (∀ v, u.abn_withholding_rate = some v →
        (update_tax_super_rules r u).abn_withholding_rate = v) ∧
      (u.abn_withholding_rate = none →
        (update_tax_super_rules r u).abn_withholding_rate
          = r.abn_withholding_rate) := by
  intro r u
  refine ⟨rfl, ?_, ?_, ?_, ?_, ?_, ?_, ?_, ?_, ?_, ?_, ?_, ?_, ?_, ?_, ?_,
    ?_, ?_, ?_, ?_, ?_⟩ <;>
    first
      | (intro v h; simp [update_tax_super_rules, h])
      | (intro h; simp [update_tax_super_rules, h])

/-- Claim C7 witness: updating only the super rate changes it and keeps the
bracket-1 threshold. -/
theorem rule_update_frame_witness :
    (update_tax_super_rules {} { super_rate := some (12/100) }).super_rate
        = 12/100 ∧
    (update_tax_super_rules {} { super_rate := some (12/100) }).bracket1_max
        = ({} : TaxSuperRule).bracket1_max :=
  ⟨(rule_update_frame {} { super_rate := some (12/100) }).2.1 _ rfl,
   (rule_update_frame {} { super_rate := some (12/100) }).2.2.2.2.2.2.1 rfl⟩

/-- Total of the key at the head of the dict. -/
theorem lookupTotal_cons_self (k : Nat) (v : ℚ) (rest : List (Nat × ℚ)) :
    lookupTotal ((k, v) :: rest) k = v := by
  simp [lookupTotal, List.find?]

/-- A head entry with a different key does not affect a lookup. -/
theorem lookupTotal_cons_ne {k2 k : Nat} (v : ℚ) (rest : List (Nat × ℚ))
    (h : k2 ≠ k) : lookupTotal ((k2, v) :: rest) k = lookupTotal rest k := by
  simp [lookupTotal, List.find?, h]

/-- Bumping a key adds to that key's total. -/
theorem lookupTotal_bump_self (m : List (Nat × ℚ)) (k : Nat) (v : ℚ) :
    lookupTotal (bump m k v) k = lookupTotal m k + v := by
  induction m with
  | nil =>
    simp [bump, lookupTotal_cons_self, lookupTotal, List.find?]
  | cons p rest ih =>
    obtain ⟨k2, v2⟩ := p
    by_cases h : k2 = k
    · subst h
      simp [bump, lookupTotal_cons_self]
    · simp only [bump, if_neg h]
      rw [lookupTotal_cons_ne _ _ h, lookupTotal_cons_ne _ _ h, ih]

/-- Bumping one key leaves every other key's total unchanged. -/
theorem lookupTotal_bump_ne (m : List (Nat × ℚ)) {k k2 : Nat} (v : ℚ)
    (h : k2 ≠ k) : lookupTotal (bump m k2 v) k = lookupTotal m k := by
  induction m with
  | nil =>
    simp only [bump]
    rw [lookupTotal_cons_ne _ _ h]
  | cons p rest ih =>
    obtain ⟨k3, v3⟩ := p
    by_cases h3 : k3 = k2
    · subst h3
      simp only [bump, eq_self_iff_true, if_true]
      rw [lookupTotal_cons_ne _ _ h, lookupTotal_cons_ne _ _ h]
    · by_cases h4 : k3 = k
      · subst h4
        simp only [bump, if_neg h3]
        rw [lookupTotal_cons_self, lookupTotal_cons_self]
      · simp only [bump, if_neg h3]
        rw [lookupTotal_cons_ne _ _ h4, lookupTotal_cons_ne _ _ h4, ih]

/-- Per-shift effect of the payroll aggregation step on the total of a
non-zero key. -/
theorem periodStep_lookup (ps pe : Date) (m : List (Nat × ℚ)) (sh : Shift)
    {k : Nat} (hk : k ≠ 0) :
    lookupTotal (periodStep ps pe m sh) k =
      lookupTotal m k +
        (if decide (sh.employee_id = some k)
            && within_period sh.day ps pe then
          hours_between sh.start sh.stop
        else 0) := by
  rcases hid : sh.employee_id with _ | k2
  · simp [periodStep, hid]
  · by_cases h0 : k2 = 0
    · subst h0
      have hne : ¬((some 0 : Option Nat) = some k) := by
        simp [Ne.symm hk]
      simp [periodStep, hid, hne]
    · by_cases hw : within_period sh.day ps pe = true
      · by_cases hkk : k2 = k
        · subst hkk
          simp [periodStep, hid, h0, hw, lookupTotal_bump_self]
        · have hne : ¬((some k2 : Option Nat) = some k) := by simp [hkk]
          simp [periodStep, hid, h0, hw, hne, lookupTotal_bump_ne m _ hkk]
      · simp [periodStep, hid, h0, hw]

/-- Fold form of the payroll aggregation for a non-zero key: the final total
is the initial total plus the sum of hours over exactly the qualifying
shifts. -/
theorem perEmpHours_fold (ps pe : Date) {k : Nat} (hk : k ≠ 0) :
    ∀ (shifts : List Shift) (m : List (Nat × ℚ)),
      lookupTotal (shifts.foldl (periodStep ps pe) m) k =
        lookupTotal m k +
          ((shifts.filter (fun sh => decide (sh.employee_id = some k)
              && within_period sh.day ps pe)).map
            (fun sh => hours_between sh.start sh.stop)).sum := by
  intro shifts
  induction shifts with
  | nil => intro m; simp
  | cons sh rest ih =>
    intro m
    rw [List.foldl_cons, ih, periodStep_lookup ps pe m sh hk,
      List.filter_cons]
    by_cases hp : (decide (sh.employee_id = some k)
        && within_period sh.day ps pe) = true
    · simp only [hp, if_true, List.map_cons, List.sum_cons]
      ring
    · simp [hp]

/-- The aggregation step never touches the total of key 0. -/
theorem periodStep_lookup_zero (ps pe : Date) (m : List (Nat × ℚ))
    (sh : Shift) :
    lookupTotal (periodStep ps pe m sh) 0 = lookupTotal m 0 := by
  rcases hid : sh.employee_id with _ | k2
  · simp [periodStep, hid]
  · by_cases h0 : k2 = 0
    · subst h0; simp [periodStep, hid]
    · by_cases hw : within_period sh.day ps pe = true
      · simp [periodStep, hid, h0, hw, lookupTotal_bump_ne m _ h0]
      · simp [periodStep, hid, h0, hw]

/-- Claim C4 counterexample: a shift assigned to employee id 0, inside the
period, is dropped entirely by the code's falsy test (`if not
sh.employee_id`), while the claim's non-null reading counts its hours. -/
theorem payroll_hours_claim_counterexample :
    perEmpHours
        [{ employee_id := some 0, day := ⟨2024, 6, 15⟩, start := ⟨9, 0⟩,
           stop := ⟨17, 0⟩ }] ⟨2024, 6, 1⟩ ⟨2024, 6, 30⟩
      ≠ perEmpHoursClaim
        [{ employee_id := some 0, day := ⟨2024, 6, 15⟩, start := ⟨9, 0⟩,
           stop := ⟨17, 0⟩ }] ⟨2024, 6, 1⟩ ⟨2024, 6, 30⟩ := by
  have h1 : perEmpHours
      [{ employee_id := some 0, day := ⟨2024, 6, 15⟩, start := ⟨9, 0⟩,
         stop := ⟨17, 0⟩ }] ⟨2024, 6, 1⟩ ⟨2024, 6, 30⟩ = [] := by
    simp [perEmpHours, periodStep]
  have h2 : perEmpHoursClaim
      [{ employee_id := some 0, day := ⟨2024, 6, 15⟩, start := ⟨9, 0⟩,
         stop := ⟨17, 0⟩ }] ⟨2024, 6, 1⟩ ⟨2024, 6, 30⟩
      = [(0, hours_between ⟨9, 0⟩ ⟨17, 0⟩)] := by
    norm_num [perEmpHoursClaim, bump, within_period, Date.le]
  rw [h1, h2]
  simp

/-- Claim C4 (amended): the payroll calculation aggregates hours from exactly
the shifts whose assigned-employee identifier is non-null AND non-zero and
whose day falls within the period; each such shift contributes
`hours_between(start, stop)` to its employee's total, every other shift
contributes nothing, and key 0 is never accumulated. -/
theorem payroll_hours_aggregation :
    ∀ (shifts : List Shift) (ps pe : Date) (k : Nat),
      lookupTotal (perEmpHours shifts ps pe) k =
        if k = 0 then 0
        else ((shifts.filter (fun sh => decide (sh.employee_id = some k)
            && within_period sh.day ps pe)).map
          (fun sh => hours_between sh.start sh.stop)).sum := by
  intro shifts ps pe k
  by_cases hk : k = 0
  · subst hk
    rw [if_pos rfl]
    unfold perEmpHours
    induction shifts with
    | nil => rfl
    | cons sh rest ih =>
      rw [List.foldl_cons]
      have hgen : ∀ (l : List Shift) (m : List (Nat × ℚ)),
          lookupTotal (l.foldl (periodStep ps pe) m) 0 = lookupTotal m 0 := by
        intro l
        induction l with
        | nil => intro m; rfl
        | cons a t iht =>
          intro m
          rw [List.foldl_cons, iht, periodStep_lookup_zero]
      rw [hgen, periodStep_lookup_zero]
      rfl
  · rw [if_neg hk]
    have h := perEmpHours_fold ps pe hk shifts []
    simpa [perEmpHours, lookupTotal, List.find?] using h

/-- Claim C10: a shift carrying employee id 0 is treated inconsistently by
`generate_roster` — the assignment pass skips it as already assigned (an
`is not None` test) while the totals pass skips it as unassigned (a falsy
test) — so it is never reassigned and contributes nothing to any of the four
totals. -/
theorem zero_id_shift_inconsistency :
    ∀ (employees : List Employee) (sh : Shift), sh.employee_id = some 0 →
      assign_one employees sh = sh ∧
      (∀ m, hoursStep m sh = m) ∧
      (∀ (r : TaxSuperRule) (pre post : List Shift),
        (generate_roster employees (pre ++ sh :: post) r).2
          = (generate_roster employees (pre ++ post) r).2) := by
  intro employees sh h
  have hassign : assign_one employees sh = sh := by
    simp only [assign_one, h]
  have hstep : ∀ m, hoursStep m sh = m := fun m => by
    simp [hoursStep, h]
  refine ⟨hassign, hstep, ?_⟩
  intro r pre post
  have hmap : rosterAssign employees (pre ++ sh :: post)
      = rosterAssign employees pre ++ sh :: rosterAssign employees post := by
    simp [rosterAssign, hassign]
  have hmap2 : rosterAssign employees (pre ++ post)
      = rosterAssign employees pre ++ rosterAssign employees post := by
    simp [rosterAssign]
  have hfold : ∀ (l1 l2 : List Shift),
      hoursMap (l1 ++ sh :: l2) = hoursMap (l1 ++ l2) := by
    intro l1 l2
    simp [hoursMap, List.foldl_append, hstep]
  simp only [generate_roster, hmap, hmap2, hfold]

/-- Claim C10 witness: a single zero-id shift changes none of the totals. -/
theorem zero_id_shift_inconsistency_witness :
    assign_one [wEmp]
        { employee_id := some 0, day := ⟨2024, 6, 15⟩, start := ⟨9, 0⟩,
          stop := ⟨17, 0⟩ }
      = { employee_id := some 0, day := ⟨2024, 6, 15⟩, start := ⟨9, 0⟩,
          stop := ⟨17, 0⟩ } ∧
    (generate_roster [wEmp]
        [{ employee_id := some 0, day := ⟨2024, 6, 15⟩, start := ⟨9, 0⟩,
           stop := ⟨17, 0⟩ }] {}).2
      = (generate_roster [wEmp] ([] ++ []) {}).2 := by
  have h := zero_id_shift_inconsistency [wEmp]
    { employee_id := some 0, day := ⟨2024, 6, 15⟩, start := ⟨9, 0⟩,
      stop := ⟨17, 0⟩ } rfl
  exact ⟨h.1, h.2.2 {} [] []⟩

/-- Closed form of the totals fold: each component is the initial value plus
the plain (unrounded) sum of per-employee contributions. -/
theorem totalsFold (r : TaxSuperRule) :
    ∀ (pairs : List (Employee × ℚ)) (acc : Totals),
      pairs.foldl (totalsStep r) acc =
        ⟨acc.employee_cost + (pairs.map (fun p => p.2 * p.1.hourly_rate)).sum,
         acc.tax_cost + (pairs.map (fun p =>
            compute_tax p.1 (p.2 * p.1.hourly_rate) p.2 r)).sum,
         acc.super_cost + (pairs.map (fun p =>
            compute_super (p.2 * p.1.hourly_rate) r)).sum,
         acc.cash_cost + (pairs.map (fun p =>
            if p.1.pay_preference = .cash then p.2 * p.1.hourly_rate
            else 0)).sum⟩ := by
  intro pairs
  induction pairs with
  | nil =>
    intro acc
    cases acc
    simp
  | cons p rest ih =>
    intro acc
    rw [List.foldl_cons, ih]
    simp only [totalsStep, List.map_cons, List.sum_cons, Totals.mk.injEq]
    refine ⟨?_, ?_, ?_, ?_⟩ <;> ring

/-- Claim C3: in the roster totals snapshot, each employee's gross is the
unrounded `hours * rate`, tax and super are computed from that unrounded
gross, the per-employee amounts are summed without further rounding, and the
four grand totals are each rounded to 2dp exactly once at the end. -/
theorem roster_totals_rounded_once :
    ∀ (employees : List Employee) (shifts : List Shift) (r : TaxSuperRule)
      (pairs : List (Employee × ℚ)),
      resolvePairs employees (hoursMap (rosterAssign employees shifts))
        = some pairs →
      (generate_roster employees shifts r).2 = some
        ⟨round2 ((pairs.map (fun p => p.2 * p.1.hourly_rate)).sum),
         round2 ((pairs.map (fun p =>
            compute_tax p.1 (p.2 * p.1.hourly_rate) p.2 r)).sum),
         round2 ((pairs.map (fun p =>
            compute_super (p.2 * p.1.hourly_rate) r)).sum),
         round2 ((pairs.map (fun p =>
            if p.1.pay_preference = .cash then p.2 * p.1.hourly_rate
            else 0)).sum)⟩ := by
  intro employees shifts r pairs h
  simp only [generate_roster, h, Option.map_some, totalsFold, roundTotals]
  simp

/-- Claim C3 witness: one employee with one pre-assigned 8-hour shift. -/
theorem roster_totals_rounded_once_witness :
    resolvePairs [wEmp] (hoursMap (rosterAssign [wEmp] [wShiftAssigned]))
        = some [(wEmp, 8)] ∧
    (generate_roster [wEmp] [wShiftAssigned] {}).2 = some
      ⟨round2 ((([(wEmp, (8 : ℚ))]).map (fun p => p.2 * p.1.hourly_rate)).sum),
       round2 ((([(wEmp, (8 : ℚ))]).map (fun p =>
          compute_tax p.1 (p.2 * p.1.hourly_rate) p.2 {})).sum),
       round2 ((([(wEmp, (8 : ℚ))]).map (fun p =>
          compute_super (p.2 * p.1.hourly_rate) {})).sum),
       round2 ((([(wEmp, (8 : ℚ))]).map (fun p =>
          if p.1.pay_preference = .cash then p.2 * p.1.hourly_rate
          else 0)).sum)⟩ := by
  have hres : resolvePairs [wEmp]
      (hoursMap (rosterAssign [wEmp] [wShiftAssigned]))
      = some [(wEmp, 8)] := by
    norm_num [resolvePairs, sGet, hoursMap, hoursStep, bump, rosterAssign,
      assign_one, hours_between_eq, toMin, wEmp, wShiftAssigned, List.find?]
  exact ⟨hres, roster_totals_rounded_once _ _ {} _ hres⟩

/-- Claim C6: shift creation fails exactly when a cap is set and the computed
duration strictly exceeds it; a duration at or below the cap (in particular
exactly equal) is accepted and the stored record is precisely the requested
shift appended to the store (so nothing is truncated, and an error appends
nothing). -/
theorem add_shift_cap_spec :
    ∀ (db : List Shift) (si : ShiftIn),
      ((∃ msg, add_shift db si = .error msg) ↔
        (∃ cap, si.max_shift_hours = some cap ∧
          hours_between si.start si.stop > cap)) ∧
      (∀ cap, si.max_shift_hours = some cap →
        hours_between si.start si.stop ≤ cap →
        add_shift db si = .ok (db ++ [shiftOfIn si])) ∧
      (si.max_shift_hours = none →
        add_shift db si = .ok (db ++ [shiftOfIn si])) := by
  intro db si
  rcases hm : si.max_shift_hours with _ | cap
  · refine ⟨?_, ?_, ?_⟩
    · constructor
      · intro hmsg
        obtain ⟨msg, hmsg⟩ := hmsg
        rw [add_shift] at hmsg
        simp only [shiftOfIn, hm] at hmsg
        cases hmsg
      · intro hcap
        obtain ⟨cap, hcap, _⟩ := hcap
        cases hcap
    · intro cap hcap
      cases hcap
    · intro _
      rw [add_shift]
      simp only [shiftOfIn, hm]
  · by_cases hgt : hours_between si.start si.stop > cap
    · refine ⟨?_, ?_, ?_⟩
      · constructor
        · intro _
          exact ⟨cap, rfl, hgt⟩
        · intro _
          refine ⟨"Shift exceeds max_shift_hours", ?_⟩
          rw [add_shift]
          simp only [shiftOfIn, hm]
          rw [if_pos hgt]
      · intro cap2 hcap2 hle
        cases hcap2
        exact absurd hgt (not_lt.mpr hle)
      · intro hnone
        cases hnone
    · refine ⟨?_, ?_, ?_⟩
      · constructor
        · intro hmsg
          obtain ⟨msg, hmsg⟩ := hmsg
          rw [add_shift] at hmsg
          simp only [shiftOfIn, hm] at hmsg
          rw [if_neg hgt] at hmsg
          cases hmsg
        · intro hcap
          obtain ⟨cap2, hcap2, hgt2⟩ := hcap
          cases hcap2
          exact absurd hgt2 hgt
      · intro cap2 hcap2 _
        cases hcap2
        rw [add_shift]
        simp only [shiftOfIn, hm]
        rw [if_neg hgt]
      · intro hnone
        cases hnone

/-- Claim C6 witness: an 8-hour shift with a cap of exactly 8 hours is
accepted and stored untruncated. -/
theorem add_shift_cap_spec_witness :
    add_shift [] wShiftIn = .ok ([] ++ [shiftOfIn wShiftIn]) :=
  (add_shift_cap_spec [] wShiftIn).2.1 8 rfl
    (by norm_num [hours_between_eq, toMin, wShiftIn])

/-- The rate comparison is transitive. -/
theorem rateLe_trans : ∀ (a b c : Employee), rateLe a b → rateLe b c →
    rateLe a c := by
  intro a b c hab hbc
  simp only [rateLe, decide_eq_true_eq] at hab hbc ⊢
  exact le_trans hab hbc

/-- The rate comparison is total. -/
theorem rateLe_total : ∀ (a b : Employee), rateLe a b || rateLe b a := by
  intro a b
  simp only [rateLe, Bool.or_eq_true, decide_eq_true_eq]
  exact le_total a.hourly_rate b.hourly_rate

/-- The head of the stable ascending sort by rate is the first-encountered
employee of minimal rate. -/
theorem head_mergeSort_chooseCheapest :
    ∀ l : List Employee, (l.mergeSort rateLe).head? = chooseCheapest l := by
  intro l
  induction l with
  | nil => simp [chooseCheapest]
  | cons a l ih =>
    obtain ⟨l1, l2, h1, h2, h3⟩ :=
      List.mergeSort_cons rateLe_trans rateLe_total a l
    cases l1 with
    | nil =>
      simp only [List.nil_append] at h1 h2
      rw [h1, List.head?_cons]
      unfold chooseCheapest
      rw [← ih, h2]
      cases l2 with
      | nil => simp
      | cons c t =>
        simp only [List.head?_cons]
        have hs := List.sorted_mergeSort rateLe_trans rateLe_total (a :: l)
        rw [h1] at hs
        have hac : rateLe a c = true := (List.pairwise_cons.mp hs).1 c (by simp)
        have hge : ¬(c.hourly_rate < a.hourly_rate) := by
          simp only [rateLe, decide_eq_true_eq] at hac
          exact not_lt.mpr hac
        rw [if_neg hge]
    | cons b t1 =>
      rw [h1]
      simp only [List.cons_append, List.head?_cons]
      unfold chooseCheapest
      rw [← ih, h2]
      simp only [List.cons_append, List.head?_cons]
      have hlt : b.hourly_rate < a.hourly_rate := by
        have hb := h3 b (by simp)
        simp only [Bool.not_eq_true', rateLe, decide_eq_false_iff_not] at hb
        exact lt_of_not_le hb
      rw [if_pos hlt]

/-- The source candidate filter is the candidate set described by the spec. -/
theorem filter_candidates (employees : List Employee) (sh : Shift) :
    employees.filter (fun e => sh.role.isNone || e.role == sh.role)
      = candidates employees sh := by
  rcases hr : sh.role with _ | ro
  · simp [candidates, hr]
  · simp [candidates, hr]

/-- Claim C5: `generate_roster` maps its assignment step over the shifts in
loaded order; for every unassigned shift, if no employee matches (candidates
are the role-equal employees, or all employees when the shift role is null)
the shift is left unchanged with no error, otherwise it is assigned the id of
the candidate with the lowest hourly rate, ties broken by first-encountered
order. -/
theorem roster_assignment_spec :
    ∀ (employees : List Employee) (r : TaxSuperRule) (shifts : List Shift),
      ((generate_roster employees shifts r).1
        = shifts.map (assign_one employees)) ∧
      ∀ sh : Shift, sh.employee_id = none →
        assign_one employees sh =
          (match chooseCheapest (candidates employees sh) with
          | none => sh
          | some c => { sh with employee_id := some c.id }) := by
  intro employees r shifts
  refine ⟨rfl, ?_⟩
  intro sh h
  simp only [assign_one, h]
  rw [filter_candidates, head_mergeSort_chooseCheapest]

/-- Claim C5 witness: two baristas at rates 20 and 25 and one unassigned
barista shift — the cheaper one (id 1) is chosen. -/
theorem roster_assignment_spec_witness :
    wShiftBarista.employee_id = none ∧
    chooseCheapest (candidates [wBaristaA, wBaristaB] wShiftBarista)
      = some wBaristaA ∧
    assign_one [wBaristaA, wBaristaB] wShiftBarista
      = { wShiftBarista with employee_id := some wBaristaA.id } := by
  have h := (roster_assignment_spec [wBaristaA, wBaristaB] {} []).2
    wShiftBarista rfl
  have hc : chooseCheapest (candidates [wBaristaA, wBaristaB] wShiftBarista)
      = some wBaristaA := by
    norm_num [chooseCheapest, candidates, wBaristaA, wBaristaB, wShiftBarista]
  rw [hc] at h
  exact ⟨rfl, hc, h⟩
